import Mathlib

/-!
Verification of `mozapkpublisher/push_aab.py`.

The file shallowly embeds the module: Python dicts that preserve insertion
order become association lists, exceptions become `Except`, and the
side-effecting orchestration (`main_logging.init`, metadata extraction,
store transactions) is modelled by an explicit event trace.  External
collaborators (`extract_and_check_aabs_metadata`, `GooglePlayEdit`'s
`update_aab`) are parameters of the model.
-/

set_option autoImplicit false

namespace PushAab

/-- The only field of a binary's metadata dict that `push_aab.py` reads is
`metadata['package_name']`. -/
structure Metadata where
  package_name : String
deriving DecidableEq, Repr

/-- Errors a run can raise: `WrongArgumentGiven` from the validation checks,
plus opaque failures of the external collaborators (metadata extraction and
the store's update operation). -/
inductive PushError where
  | wrongArgumentGiven (msg : String)
  | extractionError (msg : String)
  | storeError (msg : String)
deriving DecidableEq, Repr

/-- The keyword arguments passed to `edit.update_aab`; a field is `none`
when the corresponding keyword is absent from the call. -/
structure UpdateAabKwargs where
  track : Option String
  rollout_percentage : Option Int
deriving DecidableEq, Repr

/-- Python truthiness of a `str`-or-`None` value: `None` and `""` are falsy. -/
def truthyStr : Option String → Bool
  | none => false
  | some s => !(s == "")

/-- Python truthiness of an `int`-or-`None` value: `None` and `0` are falsy. -/
def truthyInt : Option Int → Bool
  | none => false
  | some n => !(n == 0)

/-- The dict comprehension building `update_aab_kwargs` in `push_aab`:
each of `track` and `rollout_percentage` is included only `if kwarg_value`,
i.e. only when truthy. -/
def update_aab_kwargs (track : Option String) (rollout_percentage : Option Int) :
    UpdateAabKwargs :=
  ⟨if truthyStr track then track else none,
   if truthyInt rollout_percentage then rollout_percentage else none⟩

/-- One iteration of the loop body of `_aabs_by_package_name`: look up
`metadata['package_name']`; if the key is not present add it mapped to `[]`;
then append the `(aab, metadata)` pair to that key's list. -/
def groupStep {α : Type} (aab_package_names : List (String × List (α × Metadata)))
    (pr : α × Metadata) : List (String × List (α × Metadata)) :=
  let package_name := pr.2.package_name
  let acc :=
    if aab_package_names.any (fun kv => kv.1 = package_name) then aab_package_names
    else aab_package_names ++ [(package_name, [])]
  acc.map (fun kv => if kv.1 = package_name then (kv.1, kv.2 ++ [pr]) else kv)

/-- Model of `_aabs_by_package_name`: fold the loop body over the `(aab, metadata)`
pairs of the input dict (association list), starting from the empty dict. -/
def aabs_by_package_name {α : Type} (aabs_metadata : List (α × Metadata)) :
    List (String × List (α × Metadata)) :=
  aabs_metadata.foldl groupStep []

/-- Duplicate removal keeping the first occurrence of each element, in
first-seen order; the reference description of the key order produced by
`_aabs_by_package_name`. -/
def dedupFirst {β : Type} [DecidableEq β] : List β → List β
  | [] => []
  | x :: xs => x :: (dedupFirst xs).filter (fun y => y ≠ x)

/-- Observable actions of a run of `push_aab`, in order: the logging setup,
the single call to the metadata extractor, and for each store transaction
its opening (`with store.transaction(...)`), the `edit.update_aab(...)`
call inside it, and its closing (leaving the `with` block, normally or
through an exception). -/
inductive Event (α : Type) where
  | loggingInit
  | extractCall
  | transactionOpen (package_name : String)
  | updateAabCall (package_name : String) (extracted_aabs : List (α × Metadata))
      (kwargs : UpdateAabKwargs)
  | transactionClose (package_name : String)
deriving DecidableEq, Repr

/-- The `for package_name, extracted_aabs in aabs_by_package_name.items()`
loop of `push_aab`: open a transaction, call `edit.update_aab`, close the
transaction (the `with` block closes it also when the call raises), and on
an exception stop — the remaining groups are never processed. -/
def pushGroups {α : Type}
    (update_aab : String → List (α × Metadata) → UpdateAabKwargs → Except PushError Unit)
    (kwargs : UpdateAabKwargs) :
    List (String × List (α × Metadata)) → List (Event α) × Except PushError Unit
  | [] => ([], Except.ok ())
  | (package_name, extracted_aabs) :: rest =>
    match update_aab package_name extracted_aabs kwargs with
    | Except.error e =>
        ([Event.transactionOpen package_name,
          Event.updateAabCall package_name extracted_aabs kwargs,
          Event.transactionClose package_name], Except.error e)
    | Except.ok _ =>
        let tail := pushGroups update_aab kwargs rest
        (Event.transactionOpen package_name ::
         Event.updateAabCall package_name extracted_aabs kwargs ::
         Event.transactionClose package_name :: tail.1, tail.2)

/-- Model of `push_aab(aabs, target_store, username, secret, track,
rollout_percentage, dry_run, contact_server)`.  Returns the trace of observable events together
with the outcome (`Except.error e` models the function raising `e`).  The two
external collaborators are passed as functions:
`extract_and_check_aabs_metadata` and the store edit's `update_aab`. -/
def push_aab {α : Type}
    (extract_and_check_aabs_metadata : List α → Except PushError (List (α × Metadata)))
    (update_aab : String → List (α × Metadata) → UpdateAabKwargs → Except PushError Unit)
    (aabs : List α) (target_store : String) (username secret : String)
    (track : Option String) (rollout_percentage : Option Int)
    (dry_run : Bool) (contact_server : Bool) :
    List (Event α) × Except PushError Unit :=
  if target_store ≠ "google" then
    ([], Except.error (PushError.wrongArgumentGiven
      "Only the Google store is currently supported for AAB"))
  else if track = none then
    ([], Except.error (PushError.wrongArgumentGiven
      "When \"target_store\" is \"google\", the track must be provided"))
  else
    match extract_and_check_aabs_metadata aabs with
    | Except.error e => ([Event.loggingInit, Event.extractCall], Except.error e)
    | Except.ok aabs_metadata_per_paths =>
      let kwargs := update_aab_kwargs track rollout_percentage
      let tail := pushGroups update_aab kwargs (aabs_by_package_name aabs_metadata_per_paths)
      (Event.loggingInit :: Event.extractCall :: tail.1, tail.2)

/-- The configuration produced by `argparse` in `main`: the subcommand
(`target_store`), its `track` positional and `--rollout-percentage` option,
and the top-level flags. -/
structure Config (α : Type) where
  target_store : String
  track : String
  rollout_percentage : Option Int
  dry_run : Bool
  contact_server : Bool
  username : String
  secret : String
  aabs : List α

/-- How the process ends after `main`: a normal exit with a status code and
an optional message printed for the user, or an uncaught exception
propagating out (a process failure). -/
inductive MainOutcome where
  | exit (code : Nat) (message : Option String)
  | uncaught (e : PushError)
deriving DecidableEq, Repr

/-- Model of `argparse.ArgumentParser.error(message)`: prints the message and
terminates the process with exit status 2. -/
def parserError (msg : String) : MainOutcome :=
  MainOutcome.exit 2 (some msg)

/-- Model of `main()` after argument parsing: derive `track` and `rollout_percentage`
from the subcommand, call `push_aab`, turn a `WrongArgumentGiven` into
`parser.error` (exit status 2); any other exception propagates uncaught; a
normal return ends the process with exit status 0. -/
def main {α : Type}
    (extract_and_check_aabs_metadata : List α → Except PushError (List (α × Metadata)))
    (update_aab : String → List (α × Metadata) → UpdateAabKwargs → Except PushError Unit)
    (config : Config α) : MainOutcome :=
  let track := if config.target_store = "google" then some config.track else none
  let rollout_percentage :=
    if config.target_store = "google" then config.rollout_percentage else none
  match (push_aab extract_and_check_aabs_metadata update_aab config.aabs config.target_store
      config.username config.secret track rollout_percentage config.dry_run
      config.contact_server).2 with
  | Except.error (PushError.wrongArgumentGiven msg) => parserError msg
  | Except.error e => MainOutcome.uncaught e
  | Except.ok _ => MainOutcome.exit 0 none

/-- The package names of the transactions opened during a run, in order. -/
def openedPackages {α : Type} (events : List (Event α)) : List String :=
  events.filterMap (fun e => match e with
    | Event.transactionOpen p => some p
    | _ => none)

/-- The `update_aab` calls of a run, in order, with their arguments. -/
def updateCalls {α : Type} (events : List (Event α)) :
    List (String × List (α × Metadata) × UpdateAabKwargs) :=
  events.filterMap (fun e => match e with
    | Event.updateAabCall p es kw => some (p, es, kw)
    | _ => none)

/-- The open/close sub-trace of a run: `(true, p)` for opening a transaction
for package `p`, `(false, p)` for closing it. -/
def ocProj {α : Type} (events : List (Event α)) : List (Bool × String) :=
  events.filterMap (fun e => match e with
    | Event.transactionOpen p => some (true, p)
    | Event.transactionClose p => some (false, p)
    | _ => none)

/-! ### Lemmas about `dedupFirst` -/

theorem mem_dedupFirst {β : Type} [DecidableEq β] (a : β) (xs : List β) :
    a ∈ dedupFirst xs ↔ a ∈ xs := by
  induction xs with
  | nil => simp [dedupFirst]
  | cons x xs ih =>
    by_cases h : a = x
    · simp [dedupFirst, h]
    · simp [dedupFirst, List.mem_filter, h, ih]

theorem nodup_dedupFirst {β : Type} [DecidableEq β] (xs : List β) :
    (dedupFirst xs).Nodup := by
  induction xs with
  | nil => simp [dedupFirst]
  | cons x xs ih =>
    rw [dedupFirst, List.nodup_cons]
    refine ⟨fun hx => ?_, ih.filter _⟩
    have := List.of_mem_filter hx
    simp at this

theorem dedupFirst_concat {β : Type} [DecidableEq β] (xs : List β) (y : β) :
    dedupFirst (xs ++ [y]) =
      if y ∈ xs then dedupFirst xs else dedupFirst xs ++ [y] := by
  induction xs with
  | nil => simp [dedupFirst]
  | cons x xs ih =>
    by_cases hyx : y ∈ xs
    · simp [dedupFirst, ih, hyx, List.mem_cons]
    · by_cases hxy : y = x
      · subst hxy
        simp [dedupFirst, ih, hyx, List.filter_append, List.mem_cons]
      · simp [dedupFirst, ih, hyx, hxy, List.filter_append, List.mem_cons,
          Ne.symm hxy]

/-! ### Characterization of `_aabs_by_package_name` -/

theorem aabs_by_package_name_concat {α : Type} (l : List (α × Metadata)) (x : α × Metadata) :
    aabs_by_package_name (l ++ [x]) = groupStep (aabs_by_package_name l) x := by
  simp [aabs_by_package_name, List.foldl_append]

theorem groupStep_canonical {α : Type} (l : List (α × Metadata)) (x : α × Metadata) :
    groupStep
      ((dedupFirst (l.map (fun pr => pr.2.package_name))).map
        (fun k => (k, l.filter (fun pr => pr.2.package_name = k)))) x =
      (dedupFirst ((l ++ [x]).map (fun pr => pr.2.package_name))).map
        (fun k => (k, (l ++ [x]).filter (fun pr => pr.2.package_name = k))) := by
  have hnames : (l ++ [x]).map (fun pr => pr.2.package_name) =
      l.map (fun pr => pr.2.package_name) ++ [x.2.package_name] := by simp
  rw [hnames, dedupFirst_concat]
  by_cases hin : x.2.package_name ∈ l.map (fun pr => pr.2.package_name)
  · -- the package name was already a key: the existing group is extended
    have hkey : x.2.package_name ∈ dedupFirst (l.map (fun pr => pr.2.package_name)) :=
      (mem_dedupFirst _ _).mpr hin
    have hany : ((dedupFirst (l.map (fun pr => pr.2.package_name))).map
        (fun k => (k, l.filter (fun pr => pr.2.package_name = k)))).any
          (fun kv => kv.1 = x.2.package_name) = true := by
      simp only [List.any_eq_true, List.mem_map]
      exact ⟨(x.2.package_name, l.filter (fun pr => pr.2.package_name = x.2.package_name)),
        ⟨x.2.package_name, hkey, rfl⟩, by simp⟩
    rw [if_pos hin, groupStep]
    simp only [hany, if_true, List.map_map]
    apply List.map_congr_left
    intro k _
    by_cases hk : k = x.2.package_name
    · subst hk
      simp [List.filter_append]
    · simp [List.filter_append, hk, Ne.symm hk]
  · -- a new key is appended at the end with the single new pair
    have hkey : x.2.package_name ∉ dedupFirst (l.map (fun pr => pr.2.package_name)) :=
      fun h => hin ((mem_dedupFirst _ _).mp h)
    have hany : ((dedupFirst (l.map (fun pr => pr.2.package_name))).map
        (fun k => (k, l.filter (fun pr => pr.2.package_name = k)))).any
          (fun kv => kv.1 = x.2.package_name) = false := by
      simp only [List.any_eq_false, List.mem_map]
      rintro kv ⟨k, hk, rfl⟩
      simp only [decide_eq_true_eq]
      intro hkp
      exact hkey (hkp ▸ hk)
    rw [if_neg hin, groupStep]
    simp only [hany, Bool.false_eq_true, if_false, List.map_append, List.map_map]
    congr 1
    · apply List.map_congr_left
      intro k hk
      have hkp : k ≠ x.2.package_name := fun h => hkey (h ▸ hk)
      simp [List.filter_append, hkp, Ne.symm hkp]
    · have hfilt : l.filter (fun pr => pr.2.package_name = x.2.package_name) = [] := by
        rw [List.filter_eq_nil_iff]
        intro pr hpr
        simp only [decide_eq_true_eq]
        intro hname
        exact hin (List.mem_map.mpr ⟨pr, hpr, hname⟩)
      simp [List.filter_append, hfilt]

/-- Closed form of `_aabs_by_package_name`: one entry per distinct package
name in first-seen order, each carrying the stable filter of the input. -/
theorem aabs_by_package_name_eq {α : Type} (l : List (α × Metadata)) :
    aabs_by_package_name l =
      (dedupFirst (l.map (fun pr => pr.2.package_name))).map
        (fun k => (k, l.filter (fun pr => pr.2.package_name = k))) := by
  induction l using List.reverseRecOn with
  | nil => rfl
  | append_singleton l x ih =>
    rw [aabs_by_package_name_concat, ih, groupStep_canonical]

theorem join_map_nil {β γ : Type} (g : β → List γ) (L : List β)
    (h : ∀ b ∈ L, g b = []) : (L.map g).flatten = [] := by
  induction L with
  | nil => rfl
  | cons b L ih =>
    simp only [List.map_cons, List.flatten_cons, h b (List.mem_cons_self b L)]
    exact ih (fun b hb => h b (List.mem_cons_of_mem _ hb))

theorem join_map_insert_perm {β γ : Type} [DecidableEq β] (ks : List β)
    (g : β → List γ) (a : γ) (k0 : β) (hnd : ks.Nodup) (hmem : k0 ∈ ks) :
    ((ks.map (fun k => if k = k0 then a :: g k else g k)).flatten).Perm
      (a :: (ks.map g).flatten) := by
  induction ks with
  | nil => cases hmem
  | cons k ks ih =>
    rw [List.nodup_cons] at hnd
    rcases List.mem_cons.mp hmem with hk | hk
    · subst hk
      have hcongr : ks.map (fun k => if k = k0 then a :: g k else g k) = ks.map g := by
        apply List.map_congr_left
        intro k hkmem
        have : k ≠ k0 := fun h => hnd.1 (h ▸ hkmem)
        simp [this]
      simp [hcongr]
    · by_cases hkk : k = k0
      · exact absurd (hkk ▸ hk) hnd.1
      · simp only [List.map_cons, List.flatten_cons, hkk, if_false]
        refine ((ih hnd.2 hk).append_left (g k)).trans ?_
        exact List.perm_middle

theorem join_filter_groups_perm {α : Type} (l : List (α × Metadata)) (ks : List String)
    (hnd : ks.Nodup) (hcov : ∀ pr ∈ l, pr.2.package_name ∈ ks) :
    ((ks.map (fun k => l.filter (fun pr => pr.2.package_name = k))).flatten).Perm l := by
  induction l with
  | nil =>
    have h0 : (ks.map (fun k =>
        ([] : List (α × Metadata)).filter (fun pr => pr.2.package_name = k))).flatten =
        ([] : List (α × Metadata)) :=
      join_map_nil _ ks (fun b _ => rfl)
    rw [h0]
  | cons pr l ih =>
    have hcov' : ∀ q ∈ l, q.2.package_name ∈ ks :=
      fun q hq => hcov q (List.mem_cons_of_mem _ hq)
    have hstep : ks.map (fun k => (pr :: l).filter (fun q => q.2.package_name = k)) =
        ks.map (fun k => if k = pr.2.package_name then
          pr :: l.filter (fun q => q.2.package_name = k)
          else l.filter (fun q => q.2.package_name = k)) := by
      apply List.map_congr_left
      intro k _
      by_cases hk : k = pr.2.package_name
      · simp [List.filter_cons, hk]
      · simp [List.filter_cons, hk, Ne.symm hk]
    rw [hstep]
    exact (join_map_insert_perm ks _ pr pr.2.package_name hnd
      (hcov pr (List.mem_cons_self pr l))).trans ((ih hcov').cons pr)

/-! ### Lemmas about the transaction loop -/

theorem pushGroups_all_ok {α : Type}
    (update_aab : String → List (α × Metadata) → UpdateAabKwargs → Except PushError Unit)
    (kwargs : UpdateAabKwargs) (gs : List (String × List (α × Metadata)))
    (h : ∀ p es, update_aab p es kwargs = Except.ok ()) :
    pushGroups update_aab kwargs gs =
      ((gs.map (fun g => [Event.transactionOpen g.1,
        Event.updateAabCall g.1 g.2 kwargs, Event.transactionClose g.1])).flatten,
       Except.ok ()) := by
  induction gs with
  | nil => rfl
  | cons g gs ih =>
    obtain ⟨p, es⟩ := g
    simp only [pushGroups, h p es, ih, List.map_cons, List.flatten_cons]
    rfl

/-- Every run of the loop processes an initial segment `done` of the groups:
the trace is the concatenation of one open/update/close block per processed
group; the loop returns normally only when every group was processed, and
returns an error exactly when the last processed group's update raised it. -/
theorem pushGroups_split {α : Type}
    (update_aab : String → List (α × Metadata) → UpdateAabKwargs → Except PushError Unit)
    (kwargs : UpdateAabKwargs) (gs : List (String × List (α × Metadata))) :
    ∃ done rest, gs = done ++ rest ∧
      (pushGroups update_aab kwargs gs).1 =
        (done.map (fun g => [Event.transactionOpen g.1,
          Event.updateAabCall g.1 g.2 kwargs, Event.transactionClose g.1])).flatten ∧
      ((pushGroups update_aab kwargs gs).2 = Except.ok () → rest = []) ∧
      (∀ e, (pushGroups update_aab kwargs gs).2 = Except.error e →
        ∃ p es, done.getLast? = some (p, es) ∧
          update_aab p es kwargs = Except.error e) := by
  induction gs with
  | nil =>
    exact ⟨[], [], rfl, rfl, fun _ => rfl, fun e he => Except.noConfusion he⟩
  | cons g gs ih =>
    obtain ⟨p, es⟩ := g
    cases hupd : update_aab p es kwargs with
    | error e =>
      refine ⟨[(p, es)], gs, rfl, ?_, ?_, ?_⟩
      · simp [pushGroups, hupd]
      · intro hok
        simp only [pushGroups, hupd] at hok
        exact Except.noConfusion hok
      · intro e' he'
        simp only [pushGroups, hupd] at he'
        injection he' with h1
        exact ⟨p, es, rfl, h1 ▸ hupd⟩
    | ok u =>
      cases u
      obtain ⟨done, rest, hsplit, htrace, hok, herr⟩ := ih
      refine ⟨(p, es) :: done, rest, by rw [List.cons_append, ← hsplit], ?_, ?_, ?_⟩
      · simp only [pushGroups, hupd, List.map_cons, List.flatten_cons, htrace]
        rfl
      · intro h
        apply hok
        simpa only [pushGroups, hupd] using h
      · intro e he
        simp only [pushGroups, hupd] at he
        obtain ⟨p', es', hlast, hupd'⟩ := herr e he
        refine ⟨p', es', ?_, hupd'⟩
        cases done with
        | nil => exact absurd hlast (by simp)
        | cons d ds => rw [List.getLast?_cons_cons]; exact hlast

/-- Every `update_aab` call of the loop passes exactly the keyword arguments
the loop was given. -/
theorem pushGroups_kwargs_eq {α : Type}
    (update_aab : String → List (α × Metadata) → UpdateAabKwargs → Except PushError Unit)
    (kwargs : UpdateAabKwargs) (gs : List (String × List (α × Metadata)))
    (p : String) (es : List (α × Metadata)) (kw : UpdateAabKwargs)
    (h : Event.updateAabCall p es kw ∈ (pushGroups update_aab kwargs gs).1) :
    kw = kwargs := by
  induction gs with
  | nil => simp [pushGroups] at h
  | cons g gs ih =>
    obtain ⟨q, qs⟩ := g
    cases hupd : update_aab q qs kwargs with
    | error e =>
      simp only [pushGroups, hupd] at h
      rcases List.mem_cons.mp h with h1 | h
      · exact Event.noConfusion h1
      rcases List.mem_cons.mp h with h2 | h
      · injection h2 with _ _ h3
      rcases List.mem_cons.mp h with h4 | h
      · exact Event.noConfusion h4
      · simp at h
    | ok u =>
      cases u
      simp only [pushGroups, hupd] at h
      rcases List.mem_cons.mp h with h1 | h
      · exact Event.noConfusion h1
      rcases List.mem_cons.mp h with h2 | h
      · injection h2 with _ _ h3
      rcases List.mem_cons.mp h with h4 | h
      · exact Event.noConfusion h4
      · exact ih h

/-! ### Trace projections -/

theorem openedPackages_append {α : Type} (xs ys : List (Event α)) :
    openedPackages (xs ++ ys) = openedPackages xs ++ openedPackages ys :=
  List.filterMap_append xs ys _

theorem updateCalls_append {α : Type} (xs ys : List (Event α)) :
    updateCalls (xs ++ ys) = updateCalls xs ++ updateCalls ys :=
  List.filterMap_append xs ys _

theorem ocProj_append {α : Type} (xs ys : List (Event α)) :
    ocProj (xs ++ ys) = ocProj xs ++ ocProj ys :=
  List.filterMap_append xs ys _

theorem openedPackages_blocks {α : Type} (kwargs : UpdateAabKwargs)
    (done : List (String × List (α × Metadata))) :
    openedPackages ((done.map (fun g => [Event.transactionOpen g.1,
      Event.updateAabCall g.1 g.2 kwargs, Event.transactionClose g.1])).flatten) =
      done.map Prod.fst := by
  induction done with
  | nil => rfl
  | cons g gs ih =>
    rw [List.map_cons, List.flatten_cons, openedPackages_append, ih]
    rfl

theorem updateCalls_blocks {α : Type} (kwargs : UpdateAabKwargs)
    (done : List (String × List (α × Metadata))) :
    updateCalls ((done.map (fun g => [Event.transactionOpen g.1,
      Event.updateAabCall g.1 g.2 kwargs, Event.transactionClose g.1])).flatten) =
      done.map (fun g => (g.1, g.2, kwargs)) := by
  induction done with
  | nil => rfl
  | cons g gs ih =>
    rw [List.map_cons, List.flatten_cons, updateCalls_append, ih]
    rfl

theorem ocProj_blocks {α : Type} (kwargs : UpdateAabKwargs)
    (done : List (String × List (α × Metadata))) :
    ocProj ((done.map (fun g => [Event.transactionOpen g.1,
      Event.updateAabCall g.1 g.2 kwargs, Event.transactionClose g.1])).flatten) =
      (done.map (fun g => [(true, g.1), (false, g.1)])).flatten := by
  induction done with
  | nil => rfl
  | cons g gs ih =>
    rw [List.map_cons, List.flatten_cons, ocProj_append, ih]
    rfl

/-! ### Lemmas for re-grouping a flattened grouping -/

theorem map_flatten_eq {β γ : Type} (f : β → γ) (L : List (List β)) :
    (L.flatten).map f = (L.map (fun l => l.map f)).flatten := by
  induction L with
  | nil => rfl
  | cons l L ih => simp [ih]

theorem filter_flatten_eq {β : Type} (p : β → Bool) (L : List (List β)) :
    (L.flatten).filter p = (L.map (fun l => l.filter p)).flatten := by
  induction L with
  | nil => rfl
  | cons l L ih => simp [List.filter_append, ih]

theorem names_of_group {α : Type} (l : List (α × Metadata)) (k : String) :
    (l.filter (fun pr => pr.2.package_name = k)).map (fun pr => pr.2.package_name) =
      List.replicate (l.filter (fun pr => pr.2.package_name = k)).length k := by
  have hmem : ∀ b ∈ (l.filter (fun pr => pr.2.package_name = k)).map
      (fun pr => pr.2.package_name), b = k := by
    intro b hb
    rcases List.mem_map.mp hb with ⟨pr, hpr, rfl⟩
    exact of_decide_eq_true (List.mem_filter.mp hpr).2
  have h := List.eq_replicate_of_mem hmem
  rw [h, List.length_map]

theorem dedupFirst_replicate_append {β : Type} [DecidableEq β] (n : Nat) (k : β)
    (t : List β) (hn : 0 < n) :
    dedupFirst (List.replicate n k ++ t) =
      k :: (dedupFirst t).filter (fun y => y ≠ k) := by
  induction n with
  | zero => cases hn
  | succ n ih =>
    rcases Nat.eq_zero_or_pos n with h0 | hpos
    · subst h0
      simp [dedupFirst]
    · rw [List.replicate_succ, List.cons_append, dedupFirst, ih hpos]
      simp [List.filter_cons, List.filter_filter]

theorem dedupFirst_flatten_replicate {β : Type} [DecidableEq β] (ks : List β)
    (n : β → Nat) (hnd : ks.Nodup) (hpos : ∀ k ∈ ks, 0 < n k) :
    dedupFirst ((ks.map (fun k => List.replicate (n k) k)).flatten) = ks := by
  induction ks with
  | nil => rfl
  | cons k ks ih =>
    rw [List.nodup_cons] at hnd
    rw [List.map_cons, List.flatten_cons,
      dedupFirst_replicate_append _ _ _ (hpos k (List.mem_cons_self k ks)),
      ih hnd.2 (fun k' hk' => hpos k' (List.mem_cons_of_mem _ hk'))]
    congr 1
    rw [List.filter_eq_self]
    intro a ha
    simp only [decide_eq_true_eq]
    exact fun h => hnd.1 (h ▸ ha)

theorem flatten_if_single {β γ : Type} [DecidableEq β] (ks : List β) (k : β)
    (A : List γ) (hnd : ks.Nodup) (hk : k ∈ ks) :
    ((ks.map (fun q => if q = k then A else [])).flatten) = A := by
  induction ks with
  | nil => cases hk
  | cons k0 ks ih =>
    rw [List.nodup_cons] at hnd
    rw [List.map_cons, List.flatten_cons]
    rcases List.mem_cons.mp hk with rfl | hk'
    · rw [if_pos rfl]
      have hrest : (ks.map (fun q => if q = k then A else [])).flatten = [] := by
        apply join_map_nil
        intro b hb
        rw [if_neg]
        exact fun h => hnd.1 (h ▸ hb)
      rw [hrest, List.append_nil]
    · rw [if_neg (show ¬k0 = k from fun h => hnd.1 (by rw [h]; exact hk')),
        List.nil_append]
      exact ih hnd.2 hk'

theorem filter_group_same {α : Type} (l : List (α × Metadata)) (k : String) :
    (l.filter (fun pr => pr.2.package_name = k)).filter
      (fun pr => pr.2.package_name = k) = l.filter (fun pr => pr.2.package_name = k) := by
  rw [List.filter_eq_self]
  intro a ha
  exact (List.mem_filter.mp ha).2

theorem filter_group_other {α : Type} (l : List (α × Metadata)) (k k' : String)
    (hkk : k' ≠ k) :
    (l.filter (fun pr => pr.2.package_name = k')).filter
      (fun pr => pr.2.package_name = k) = [] := by
  rw [List.filter_eq_nil_iff]
  intro a ha
  have h2 : a.2.package_name = k' := of_decide_eq_true (List.mem_filter.mp ha).2
  simp only [decide_eq_true_eq]
  intro h
  exact hkk (h2 ▸ h)

/-! ### Composite helper lemmas -/

theorem keys_eq_dedupFirst {α : Type} (l : List (α × Metadata)) :
    (aabs_by_package_name l).map Prod.fst =
      dedupFirst (l.map (fun pr => pr.2.package_name)) := by
  rw [aabs_by_package_name_eq, List.map_map]
  have h : (Prod.fst ∘ fun k : String =>
      (k, l.filter (fun pr => pr.2.package_name = k))) = id := rfl
  rw [h, List.map_id]

theorem groups_eq_filter {α : Type} (l : List (α × Metadata)) (k : String)
    (g : List (α × Metadata)) (hmem : (k, g) ∈ aabs_by_package_name l) :
    g = l.filter (fun pr => pr.2.package_name = k) := by
  rw [aabs_by_package_name_eq] at hmem
  rcases List.mem_map.mp hmem with ⟨k', _, heq⟩
  injection heq with h1 h2
  subst h1
  exact h2.symm

theorem flatten_groups_eq {α : Type} (l : List (α × Metadata)) :
    ((aabs_by_package_name l).map Prod.snd).flatten =
      ((dedupFirst (l.map (fun pr => pr.2.package_name))).map
        (fun k => l.filter (fun pr => pr.2.package_name = k))).flatten := by
  rw [aabs_by_package_name_eq, List.map_map]
  rfl

theorem flatten_groups_perm {α : Type} (l : List (α × Metadata)) :
    (((aabs_by_package_name l).map Prod.snd).flatten).Perm l := by
  rw [flatten_groups_eq]
  exact join_filter_groups_perm l _ (nodup_dedupFirst _)
    (fun pr hpr => (mem_dedupFirst _ _).mpr (List.mem_map.mpr ⟨pr, hpr, rfl⟩))

theorem names_flatten_groups {α : Type} (l : List (α × Metadata)) :
    dedupFirst ((((dedupFirst (l.map (fun pr => pr.2.package_name))).map
        (fun k => l.filter (fun pr => pr.2.package_name = k))).flatten).map
          (fun pr => pr.2.package_name)) =
      dedupFirst (l.map (fun pr => pr.2.package_name)) := by
  rw [map_flatten_eq, List.map_map]
  have hcongr : (dedupFirst (l.map (fun pr => pr.2.package_name))).map
      ((fun l' => l'.map (fun pr => pr.2.package_name)) ∘
        (fun k => l.filter (fun pr => pr.2.package_name = k))) =
      (dedupFirst (l.map (fun pr => pr.2.package_name))).map
        (fun k => List.replicate
          (l.filter (fun pr => pr.2.package_name = k)).length k) := by
    apply List.map_congr_left
    intro k _
    exact names_of_group l k
  rw [hcongr]
  apply dedupFirst_flatten_replicate _ _ (nodup_dedupFirst _)
  intro k hk
  rcases List.mem_map.mp ((mem_dedupFirst _ _).mp hk) with ⟨pr, hpr, hname⟩
  have hin : pr ∈ l.filter (fun q => q.2.package_name = k) :=
    List.mem_filter.mpr ⟨hpr, by simp [hname]⟩
  exact List.length_pos_of_mem hin

theorem filter_flatten_groups {α : Type} (l : List (α × Metadata)) (k : String)
    (hk : k ∈ dedupFirst (l.map (fun pr => pr.2.package_name))) :
    (((dedupFirst (l.map (fun pr => pr.2.package_name))).map
        (fun q => l.filter (fun pr => pr.2.package_name = q))).flatten).filter
      (fun pr => pr.2.package_name = k) =
      l.filter (fun pr => pr.2.package_name = k) := by
  rw [filter_flatten_eq, List.map_map]
  have hcongr : (dedupFirst (l.map (fun pr => pr.2.package_name))).map
      ((fun l' => l'.filter (fun pr => pr.2.package_name = k)) ∘
        (fun q => l.filter (fun pr => pr.2.package_name = q))) =
      (dedupFirst (l.map (fun pr => pr.2.package_name))).map
        (fun q => if q = k then l.filter (fun pr => pr.2.package_name = k) else []) := by
    apply List.map_congr_left
    intro q _
    by_cases hq : q = k
    · subst hq
      show (l.filter (fun pr => pr.2.package_name = q)).filter
          (fun pr => pr.2.package_name = q) = _
      rw [if_pos rfl]
      exact filter_group_same l q
    · show (l.filter (fun pr => pr.2.package_name = q)).filter
          (fun pr => pr.2.package_name = k) = _
      rw [if_neg hq]
      exact filter_group_other l k q hq
  rw [hcongr]
  exact flatten_if_single _ _ _ (nodup_dedupFirst _) hk

/-! ### Unfolding the validated paths of `push_aab` -/

theorem push_aab_google_extract_ok {α : Type}
    (extract_and_check_aabs_metadata : List α → Except PushError (List (α × Metadata)))
    (update_aab : String → List (α × Metadata) → UpdateAabKwargs → Except PushError Unit)
    (aabs : List α) (username secret track_value : String)
    (rollout_percentage : Option Int) (dry_run contact_server : Bool)
    (m : List (α × Metadata))
    (hex : extract_and_check_aabs_metadata aabs = Except.ok m) :
    push_aab extract_and_check_aabs_metadata update_aab aabs "google" username secret
        (some track_value) rollout_percentage dry_run contact_server =
      (Event.loggingInit :: Event.extractCall ::
        (pushGroups update_aab (update_aab_kwargs (some track_value) rollout_percentage)
          (aabs_by_package_name m)).1,
       (pushGroups update_aab (update_aab_kwargs (some track_value) rollout_percentage)
          (aabs_by_package_name m)).2) := by
  unfold push_aab
  rw [if_neg (by simp), if_neg (by simp), hex]

theorem push_aab_google_extract_error {α : Type}
    (extract_and_check_aabs_metadata : List α → Except PushError (List (α × Metadata)))
    (update_aab : String → List (α × Metadata) → UpdateAabKwargs → Except PushError Unit)
    (aabs : List α) (username secret track_value : String)
    (rollout_percentage : Option Int) (dry_run contact_server : Bool) (e : PushError)
    (hex : extract_and_check_aabs_metadata aabs = Except.error e) :
    push_aab extract_and_check_aabs_metadata update_aab aabs "google" username secret
        (some track_value) rollout_percentage dry_run contact_server =
      ([Event.loggingInit, Event.extractCall], Except.error e) := by
  unfold push_aab
  rw [if_neg (by simp), if_neg (by simp), hex]

theorem openedPackages_skip2 {α : Type} (evs : List (Event α)) :
    openedPackages (Event.loggingInit :: Event.extractCall :: evs) =
      openedPackages evs := rfl

theorem updateCalls_skip2 {α : Type} (evs : List (Event α)) :
    updateCalls (Event.loggingInit :: Event.extractCall :: evs) =
      updateCalls evs := rfl

theorem ocProj_skip2 {α : Type} (evs : List (Event α)) :
    ocProj (Event.loggingInit :: Event.extractCall :: evs) = ocProj evs := rfl

/-! ### The claims -/

/-- C1: `_aabs_by_package_name` is a stable partition by package name.
Its keys are exactly the distinct package names observed, in first-seen
order; each key's group is the sub-sequence of input pairs carrying that
package name, in original relative order; flattening the groups is a
permutation of the input (no pair dropped or duplicated); and the empty
input yields the empty mapping. -/
theorem aabs_by_package_name_stable_partition {α : Type} (l : List (α × Metadata)) :
    (aabs_by_package_name l).map Prod.fst =
        dedupFirst (l.map (fun pr => pr.2.package_name)) ∧
      (∀ k g, (k, g) ∈ aabs_by_package_name l →
        g = l.filter (fun pr => pr.2.package_name = k)) ∧
      (((aabs_by_package_name l).map Prod.snd).flatten).Perm l ∧
      aabs_by_package_name ([] : List (α × Metadata)) = [] :=
  ⟨keys_eq_dedupFirst l, fun k g hmem => groups_eq_filter l k g hmem,
    flatten_groups_perm l, rfl⟩

/-- C8: grouping is idempotent: flattening the groups of
`_aabs_by_package_name` in key order and grouping again yields the same
mapping (same keys in the same order, same sequences). -/
theorem aabs_by_package_name_idempotent {α : Type} (l : List (α × Metadata)) :
    aabs_by_package_name (((aabs_by_package_name l).map Prod.snd).flatten) =
      aabs_by_package_name l := by
  rw [flatten_groups_eq, aabs_by_package_name_eq
    (((dedupFirst (l.map (fun pr => pr.2.package_name))).map
      (fun k => l.filter (fun pr => pr.2.package_name = k))).flatten)]
  rw [names_flatten_groups]
  conv_rhs => rw [aabs_by_package_name_eq]
  apply List.map_congr_left
  intro k hk
  rw [filter_flatten_groups l k hk]

/-- C5: with a `target_store` other than the supported `"google"`,
`push_aab` raises `WrongArgumentGiven` immediately: the run's trace is
empty, so the metadata extractor was never invoked, no transaction was
opened and no other work was performed. -/
theorem unsupported_store_fails_before_extraction {α : Type}
    (extract_and_check_aabs_metadata : List α → Except PushError (List (α × Metadata)))
    (update_aab : String → List (α × Metadata) → UpdateAabKwargs → Except PushError Unit)
    (aabs : List α) (target_store : String) (username secret : String)
    (track : Option String) (rollout_percentage : Option Int)
    (dry_run contact_server : Bool) (h : target_store ≠ "google") :
    push_aab extract_and_check_aabs_metadata update_aab aabs target_store username
        secret track rollout_percentage dry_run contact_server =
      ([], Except.error (PushError.wrongArgumentGiven
        "Only the Google store is currently supported for AAB")) := by
  unfold push_aab
  rw [if_pos h]

theorem unsupported_store_fails_before_extraction_witness :
    push_aab (fun _ => Except.ok ([] : List (Nat × Metadata)))
        (fun _ _ _ => Except.ok ()) [] "amazon" "user" "secret" (some "beta") none
        true true =
      ([], Except.error (PushError.wrongArgumentGiven
        "Only the Google store is currently supported for AAB")) :=
  unsupported_store_fails_before_extraction _ _ _ _ _ _ _ _ _ _ (by decide)

/-- C6: with the Google store selected but no track supplied, `push_aab`
raises `WrongArgumentGiven` before metadata extraction and before any
network interaction: the run's trace is empty. -/
theorem missing_track_fails_before_extraction {α : Type}
    (extract_and_check_aabs_metadata : List α → Except PushError (List (α × Metadata)))
    (update_aab : String → List (α × Metadata) → UpdateAabKwargs → Except PushError Unit)
    (aabs : List α) (username secret : String) (rollout_percentage : Option Int)
    (dry_run contact_server : Bool) :
    push_aab extract_and_check_aabs_metadata update_aab aabs "google" username secret
        none rollout_percentage dry_run contact_server =
      ([], Except.error (PushError.wrongArgumentGiven
        "When \"target_store\" is \"google\", the track must be provided")) := by
  unfold push_aab
  rw [if_neg (by simp), if_pos rfl]

/-- C4: when metadata extraction fails, the whole run aborts right after
the single extraction call: the result is that error, and no transaction
was opened for any package. -/
theorem extraction_failure_opens_no_transaction {α : Type}
    (extract_and_check_aabs_metadata : List α → Except PushError (List (α × Metadata)))
    (update_aab : String → List (α × Metadata) → UpdateAabKwargs → Except PushError Unit)
    (aabs : List α) (username secret track_value : String)
    (rollout_percentage : Option Int) (dry_run contact_server : Bool) (e : PushError)
    (hfail : extract_and_check_aabs_metadata aabs = Except.error e) :
    push_aab extract_and_check_aabs_metadata update_aab aabs "google" username secret
        (some track_value) rollout_percentage dry_run contact_server =
      ([Event.loggingInit, Event.extractCall], Except.error e) ∧
    openedPackages (push_aab extract_and_check_aabs_metadata update_aab aabs "google"
        username secret (some track_value) rollout_percentage dry_run
        contact_server).1 = [] := by
  have h := push_aab_google_extract_error extract_and_check_aabs_metadata update_aab
    aabs username secret track_value rollout_percentage dry_run contact_server e hfail
  exact ⟨h, by rw [h]; rfl⟩

theorem extraction_failure_opens_no_transaction_witness :
    push_aab (fun _ => Except.error (PushError.extractionError "not a valid AAB"))
        (fun _ _ _ => Except.ok ()) ([0] : List Nat) "google" "user" "secret"
        (some "beta") none true true =
      ([Event.loggingInit, Event.extractCall],
       Except.error (PushError.extractionError "not a valid AAB")) ∧
    openedPackages (push_aab
        (fun _ => Except.error (PushError.extractionError "not a valid AAB"))
        (fun _ _ _ => Except.ok ()) ([0] : List Nat) "google" "user" "secret"
        (some "beta") none true true).1 = [] :=
  extraction_failure_opens_no_transaction _ _ _ _ _ _ _ _ _ _ rfl

/-- C2 (evaluation at the failing input): `push_aab` performs no rollout
validation.  Called with `track="rollout"` and `rollout_percentage=None`
it does not raise `WrongArgumentGiven`: the run succeeds, a transaction is
opened, and `update_aab` is called with only the track keyword. -/
theorem rollout_track_without_percentage_not_rejected :
    (push_aab (fun _ => Except.ok [((0 : Nat), ⟨"org.test"⟩)])
        (fun _ _ _ => Except.ok ()) [0] "google" "user" "secret" (some "rollout")
        none true true).2 = Except.ok () ∧
    Event.transactionOpen "org.test" ∈
      (push_aab (fun _ => Except.ok [((0 : Nat), ⟨"org.test"⟩)])
        (fun _ _ _ => Except.ok ()) [0] "google" "user" "secret" (some "rollout")
        none true true).1 ∧
    updateCalls (push_aab (fun _ => Except.ok [((0 : Nat), ⟨"org.test"⟩)])
        (fun _ _ _ => Except.ok ()) [0] "google" "user" "secret" (some "rollout")
        none true true).1 =
      [("org.test", [((0 : Nat), ⟨"org.test"⟩)], ⟨some "rollout", none⟩)] :=
  ⟨rfl, by decide, rfl⟩

/-- C3: on a successful run whose extracted metadata yields k distinct
package names, `push_aab` opens exactly k transactions — one per distinct
package name, in first-seen order — and for each group calls `update_aab`
exactly once with exactly that group's pairs in original relative order,
passing through the supplied track and rollout percentage. -/
theorem one_transaction_per_package_name {α : Type}
    (extract_and_check_aabs_metadata : List α → Except PushError (List (α × Metadata)))
    (update_aab : String → List (α × Metadata) → UpdateAabKwargs → Except PushError Unit)
    (aabs : List α) (username secret track_value : String)
    (rollout_percentage : Option Int) (dry_run contact_server : Bool)
    (m : List (α × Metadata))
    (hex : extract_and_check_aabs_metadata aabs = Except.ok m)
    (htrack : track_value ≠ "")
    (hrp : rollout_percentage = none ∨ ∃ n : Int, rollout_percentage = some n ∧ n ≠ 0)
    (hupd : ∀ p es,
      update_aab p es (update_aab_kwargs (some track_value) rollout_percentage) =
        Except.ok ()) :
    openedPackages (push_aab extract_and_check_aabs_metadata update_aab aabs "google"
        username secret (some track_value) rollout_percentage dry_run
        contact_server).1 =
      (aabs_by_package_name m).map Prod.fst ∧
    (aabs_by_package_name m).map Prod.fst =
      dedupFirst (m.map (fun pr => pr.2.package_name)) ∧
    updateCalls (push_aab extract_and_check_aabs_metadata update_aab aabs "google"
        username secret (some track_value) rollout_percentage dry_run
        contact_server).1 =
      (aabs_by_package_name m).map (fun g =>
        (g.1, g.2, update_aab_kwargs (some track_value) rollout_percentage)) ∧
    (update_aab_kwargs (some track_value) rollout_percentage).track =
      some track_value ∧
    (update_aab_kwargs (some track_value) rollout_percentage).rollout_percentage =
      rollout_percentage ∧
    (∀ k g, (k, g) ∈ aabs_by_package_name m →
      g = m.filter (fun pr => pr.2.package_name = k)) := by
  have hpush := push_aab_google_extract_ok extract_and_check_aabs_metadata update_aab
    aabs username secret track_value rollout_percentage dry_run contact_server m hex
  have hloop := pushGroups_all_ok update_aab
    (update_aab_kwargs (some track_value) rollout_percentage)
    (aabs_by_package_name m) hupd
  rw [hloop] at hpush
  refine ⟨?_, keys_eq_dedupFirst m, ?_, ?_, ?_,
    fun k g hmem => groups_eq_filter m k g hmem⟩
  · rw [hpush, openedPackages_skip2, openedPackages_blocks]
  · rw [hpush, updateCalls_skip2, updateCalls_blocks]
  · simp [update_aab_kwargs, truthyStr, htrack]
  · rcases hrp with h0 | ⟨n, hn, hne⟩
    · simp [h0, update_aab_kwargs, truthyInt]
    · simp [hn, update_aab_kwargs, truthyInt, hne]

/-- C7: transactions never interleave and never leak.  With extraction
succeeding, the open/close sub-trace of any run is a sequence of matched
(open p, close p) blocks, one per processed group, where the processed
groups form a prefix of the grouping and carry pairwise-distinct package
names; the run succeeds only when every group was processed, and an error
is precisely an `update_aab` failure of the last processed group — whose
transaction was still closed — with no later group processed. -/
theorem transactions_sequential_and_scoped {α : Type}
    (extract_and_check_aabs_metadata : List α → Except PushError (List (α × Metadata)))
    (update_aab : String → List (α × Metadata) → UpdateAabKwargs → Except PushError Unit)
    (aabs : List α) (username secret track_value : String)
    (rollout_percentage : Option Int) (dry_run contact_server : Bool)
    (m : List (α × Metadata))
    (hex : extract_and_check_aabs_metadata aabs = Except.ok m) :
    ∃ done rest, aabs_by_package_name m = done ++ rest ∧
      ocProj (push_aab extract_and_check_aabs_metadata update_aab aabs "google"
          username secret (some track_value) rollout_percentage dry_run
          contact_server).1 =
        (done.map (fun g => [(true, g.1), (false, g.1)])).flatten ∧
      (done.map Prod.fst).Nodup ∧
      ((push_aab extract_and_check_aabs_metadata update_aab aabs "google" username
          secret (some track_value) rollout_percentage dry_run contact_server).2 =
        Except.ok () → rest = []) ∧
      (∀ e, (push_aab extract_and_check_aabs_metadata update_aab aabs "google"
          username secret (some track_value) rollout_percentage dry_run
          contact_server).2 = Except.error e →
        ∃ p es, done.getLast? = some (p, es) ∧
          update_aab p es (update_aab_kwargs (some track_value) rollout_percentage) =
            Except.error e) := by
  have hpush := push_aab_google_extract_ok extract_and_check_aabs_metadata update_aab
    aabs username secret track_value rollout_percentage dry_run contact_server m hex
  obtain ⟨done, rest, hsplit, htrace, hok, herr⟩ :=
    pushGroups_split update_aab (update_aab_kwargs (some track_value) rollout_percentage)
      (aabs_by_package_name m)
  refine ⟨done, rest, hsplit, ?_, ?_, ?_, ?_⟩
  · rw [hpush, ocProj_skip2, htrace, ocProj_blocks]
  · have hnd : ((aabs_by_package_name m).map Prod.fst).Nodup := by
      rw [keys_eq_dedupFirst]
      exact nodup_dedupFirst _
    rw [hsplit, List.map_append] at hnd
    exact (List.nodup_append.mp hnd).1
  · intro h
    apply hok
    rw [hpush] at h
    exact h
  · intro e he
    apply herr
    rw [hpush] at he
    exact he

/-- Concrete fixture: three binaries, two with package `com.app.a` and one
with `com.app.b`. -/
def sampleMetadata : List (Nat × Metadata) :=
  [(0, ⟨"com.app.a"⟩), (1, ⟨"com.app.a"⟩), (2, ⟨"com.app.b"⟩)]

/-- Concrete fixture: an extractor returning `sampleMetadata`. -/
def sampleExtract : List Nat → Except PushError (List (Nat × Metadata)) :=
  fun _ => Except.ok sampleMetadata

/-- Concrete fixture: an extractor returning one binary of package
`org.test`. -/
def singleExtract : List Nat → Except PushError (List (Nat × Metadata)) :=
  fun _ => Except.ok [(0, ⟨"org.test"⟩)]

/-- Concrete fixture: an always-succeeding store update operation. -/
def sampleUpdateOk : String → List (Nat × Metadata) → UpdateAabKwargs →
    Except PushError Unit :=
  fun _ _ _ => Except.ok ()

theorem one_transaction_per_package_name_witness :
    openedPackages (push_aab sampleExtract sampleUpdateOk [0, 1, 2] "google" "user"
        "secret" (some "rollout") (some 50) true true).1 =
      (aabs_by_package_name sampleMetadata).map Prod.fst ∧
    (aabs_by_package_name sampleMetadata).map Prod.fst =
      dedupFirst (sampleMetadata.map (fun pr => pr.2.package_name)) ∧
    updateCalls (push_aab sampleExtract sampleUpdateOk [0, 1, 2] "google" "user"
        "secret" (some "rollout") (some 50) true true).1 =
      (aabs_by_package_name sampleMetadata).map (fun g =>
        (g.1, g.2, update_aab_kwargs (some "rollout") (some 50))) ∧
    (update_aab_kwargs (some "rollout") (some 50)).track = some "rollout" ∧
    (update_aab_kwargs (some "rollout") (some 50)).rollout_percentage = some 50 ∧
    (∀ k g, (k, g) ∈ aabs_by_package_name sampleMetadata →
      g = sampleMetadata.filter (fun pr => pr.2.package_name = k)) :=
  one_transaction_per_package_name sampleExtract sampleUpdateOk [0, 1, 2] "user"
    "secret" "rollout" (some 50) true true sampleMetadata rfl (by decide)
    (Or.inr ⟨50, rfl, by decide⟩) (fun _ _ => rfl)

theorem transactions_sequential_and_scoped_witness :
    ∃ done rest, aabs_by_package_name sampleMetadata = done ++ rest ∧
      ocProj (push_aab sampleExtract sampleUpdateOk [0, 1, 2] "google" "user"
          "secret" (some "beta") none true true).1 =
        (done.map (fun g => [(true, g.1), (false, g.1)])).flatten ∧
      (done.map Prod.fst).Nodup ∧
      ((push_aab sampleExtract sampleUpdateOk [0, 1, 2] "google" "user" "secret"
          (some "beta") none true true).2 = Except.ok () → rest = []) ∧
      (∀ e, (push_aab sampleExtract sampleUpdateOk [0, 1, 2] "google" "user"
          "secret" (some "beta") none true true).2 = Except.error e →
        ∃ p es, done.getLast? = some (p, es) ∧
          sampleUpdateOk p es (update_aab_kwargs (some "beta") none) =
            Except.error e) :=
  transactions_sequential_and_scoped sampleExtract sampleUpdateOk [0, 1, 2] "user"
    "secret" "beta" none true true sampleMetadata rfl

/-- Unfolding equation of `main`. -/
theorem main_eq {α : Type}
    (extract_and_check_aabs_metadata : List α → Except PushError (List (α × Metadata)))
    (update_aab : String → List (α × Metadata) → UpdateAabKwargs → Except PushError Unit)
    (config : Config α) :
    main extract_and_check_aabs_metadata update_aab config =
      match (push_aab extract_and_check_aabs_metadata update_aab config.aabs
          config.target_store config.username config.secret
          (if config.target_store = "google" then some config.track else none)
          (if config.target_store = "google" then config.rollout_percentage else none)
          config.dry_run config.contact_server).2 with
      | Except.error (PushError.wrongArgumentGiven msg) => parserError msg
      | Except.error e => MainOutcome.uncaught e
      | Except.ok _ => MainOutcome.exit 0 none := rfl

/-- C9: when `push_aab` raises a configuration error (`WrongArgumentGiven`),
`main` turns it into `parser.error`, i.e. a process exit with the
conventional status 2 and the human-readable message; when `push_aab`
returns normally, the process exits with status 0. -/
theorem main_exit_codes {α : Type}
    (extract_and_check_aabs_metadata : List α → Except PushError (List (α × Metadata)))
    (update_aab : String → List (α × Metadata) → UpdateAabKwargs → Except PushError Unit)
    (config : Config α) :
    (∀ msg, (push_aab extract_and_check_aabs_metadata update_aab config.aabs
          config.target_store config.username config.secret
          (if config.target_store = "google" then some config.track else none)
          (if config.target_store = "google" then config.rollout_percentage else none)
          config.dry_run config.contact_server).2 =
        Except.error (PushError.wrongArgumentGiven msg) →
      main extract_and_check_aabs_metadata update_aab config = parserError msg ∧
        parserError msg = MainOutcome.exit 2 (some msg)) ∧
    ((push_aab extract_and_check_aabs_metadata update_aab config.aabs
          config.target_store config.username config.secret
          (if config.target_store = "google" then some config.track else none)
          (if config.target_store = "google" then config.rollout_percentage else none)
          config.dry_run config.contact_server).2 = Except.ok () →
      main extract_and_check_aabs_metadata update_aab config =
        MainOutcome.exit 0 none) := by
  constructor
  · intro msg h
    refine ⟨?_, rfl⟩
    rw [main_eq, h]
  · intro h
    rw [main_eq, h]

/-- Concrete fixture: a parsed configuration selecting an unsupported
store. -/
def sampleBadConfig : Config Nat :=
  ⟨"amazon", "beta", none, true, true, "user", "secret", []⟩

theorem main_exit_codes_witness :
    main sampleExtract sampleUpdateOk sampleBadConfig =
      parserError "Only the Google store is currently supported for AAB" ∧
    parserError "Only the Google store is currently supported for AAB" =
      MainOutcome.exit 2
        (some "Only the Google store is currently supported for AAB") :=
  (main_exit_codes sampleExtract sampleUpdateOk sampleBadConfig).1
    "Only the Google store is currently supported for AAB" rfl

/-- C10: falsy optional parameters are silently dropped from the
`update_aab` keywords.  `rollout_percentage=0` makes the whole run behave
exactly as if no rollout percentage had been supplied; an empty-string
track passes the track-is-None check but is omitted from every
`update_aab` call; with both falsy, the call carries no keywords at all. -/
theorem falsy_optionals_omitted {α : Type}
    (extract_and_check_aabs_metadata : List α → Except PushError (List (α × Metadata)))
    (update_aab : String → List (α × Metadata) → UpdateAabKwargs → Except PushError Unit)
    (aabs : List α) (username secret track_value : String)
    (rollout_percentage : Option Int) (dry_run contact_server : Bool) :
    push_aab extract_and_check_aabs_metadata update_aab aabs "google" username secret
        (some track_value) (some 0) dry_run contact_server =
      push_aab extract_and_check_aabs_metadata update_aab aabs "google" username
        secret (some track_value) none dry_run contact_server ∧
    update_aab_kwargs (some "") (some 0) = ⟨none, none⟩ ∧
    (∀ p es kw, Event.updateAabCall p es kw ∈
        (push_aab extract_and_check_aabs_metadata update_aab aabs "google" username
          secret (some "") rollout_percentage dry_run contact_server).1 →
      kw.track = none) := by
  refine ⟨?_, rfl, ?_⟩
  · have hkw : update_aab_kwargs (some track_value) (some 0) =
        update_aab_kwargs (some track_value) none := by
      simp [update_aab_kwargs, truthyInt]
    unfold push_aab
    simp only [hkw]
  · intro p es kw hmem
    cases hextract : extract_and_check_aabs_metadata aabs with
    | error e =>
      rw [push_aab_google_extract_error extract_and_check_aabs_metadata update_aab
        aabs username secret "" rollout_percentage dry_run contact_server e
        hextract] at hmem
      simp at hmem
    | ok m =>
      rw [push_aab_google_extract_ok extract_and_check_aabs_metadata update_aab
        aabs username secret "" rollout_percentage dry_run contact_server m
        hextract] at hmem
      rcases List.mem_cons.mp hmem with h1 | hmem
      · exact absurd h1 (by simp)
      rcases List.mem_cons.mp hmem with h2 | hmem
      · exact absurd h2 (by simp)
      have hk := pushGroups_kwargs_eq update_aab
        (update_aab_kwargs (some "") rollout_percentage)
        (aabs_by_package_name m) p es kw hmem
      rw [hk]
      simp [update_aab_kwargs, truthyStr]

theorem falsy_optionals_omitted_witness :
    (⟨none, some 7⟩ : UpdateAabKwargs).track = none :=
  (falsy_optionals_omitted singleExtract sampleUpdateOk [0] "user" "secret" "beta"
    (some 7) true true).2.2 "org.test" [(0, ⟨"org.test"⟩)] ⟨none, some 7⟩ (by decide)

theorem aabs_by_package_name_stable_partition_witness :
    (aabs_by_package_name sampleMetadata).map Prod.fst =
        dedupFirst (sampleMetadata.map (fun pr => pr.2.package_name)) ∧
      (∀ k g, (k, g) ∈ aabs_by_package_name sampleMetadata →
        g = sampleMetadata.filter (fun pr => pr.2.package_name = k)) ∧
      (((aabs_by_package_name sampleMetadata).map Prod.snd).flatten).Perm
        sampleMetadata ∧
      aabs_by_package_name ([] : List (Nat × Metadata)) = [] :=
  aabs_by_package_name_stable_partition sampleMetadata

theorem aabs_by_package_name_idempotent_witness :
    aabs_by_package_name
        (((aabs_by_package_name sampleMetadata).map Prod.snd).flatten) =
      aabs_by_package_name sampleMetadata :=
  aabs_by_package_name_idempotent sampleMetadata

theorem missing_track_fails_before_extraction_witness :
    push_aab sampleExtract sampleUpdateOk [0] "google" "user" "secret" none none
        true true =
      ([], Except.error (PushError.wrongArgumentGiven
        "When \"target_store\" is \"google\", the track must be provided")) :=
  missing_track_fails_before_extraction sampleExtract sampleUpdateOk [0] "user"
    "secret" none true true

end PushAab
